import Mathlib

/-!
Shallow embedding of the UCI front end in `src/uci.cpp` (a Stockfish
derivative): the move/square codec (`UCI::square`, `UCI::move`,
`UCI::to_move`), the score formatter (`UCI::value`), and the command
handlers `position`, `setoption` and `go`.  Collaborators that live in
other translation units (the `Position` class, legal-move generation,
the options map, the engine constants in `types.h`) are modelled from
the specification and marked as such.
-/

namespace UciSpec

/-- Modelled from the spec: the special-move kind carried by a `Move`
(`type_of(m)` in the engine, defined in the absent `types.h`): normal,
promotion, en-passant capture, or castling, the latter always encoded
internally as king-captures-own-rook. -/
inductive MoveKind where
  | normal
  | promotion
  | enpassant
  | castling
deriving DecidableEq, Repr

/-- Modelled from the spec: a `Move` is an encoded (origin square,
destination square, special-move kind, promotion piece type) tuple,
with two reserved sentinels, a "none" value (`MOVE_NONE`) and a
"null move" value (`MOVE_NULL`).  Squares are indices `0..63` with
file `s % 8` and rank `s / 8` (`file_of`/`rank_of` of the absent
`types.h`); the promotion piece type indexes the string `" pnbrqk"`. -/
inductive Move where
  | none
  | null
  | mk (orig dest : Nat) (kind : MoveKind) (promo : Nat)
deriving DecidableEq, Repr

/-- Modelled from the spec: `make_square(file, rank)` of the absent
`types.h`, the inverse of `file_of`/`rank_of`. -/
def mkSquare (f r : Nat) : Nat := 8 * r + f

/-- `UCI::square`: a square as a two-character file+rank string. -/
def uciSquare (s : Nat) : String :=
  String.mk [Char.ofNat ('a'.toNat + s % 8), Char.ofNat ('1'.toNat + s / 8)]

/-- `UCI::move`: a move in coordinate notation.  Castling is displayed
as the traditional king-target square (file G or C on the origin's
rank) unless in chess960 mode, where the encoded rook square is kept. -/
def uciMove (m : Move) (chess960 : Bool) : String :=
  match m with
  | .none => "(none)"
  | .null => "0000"
  | .mk orig dest kind promo =>
    let dest2 : Nat :=
      if kind = .castling ∧ ¬ chess960 = true then
        mkSquare (if dest > orig then 6 else 2) (orig / 8)
      else dest
    let s := uciSquare orig ++ uciSquare dest2
    if kind = .promotion then s ++ String.mk [" pnbrqk".data.getD promo ' '] else s

/-- `tolower` of the C locale as used by `UCI::to_move`: ASCII
upper-case letters map to lower case, everything else is unchanged. -/
def ctolower (c : Char) : Char :=
  if 'A' ≤ c ∧ c ≤ 'Z' then Char.ofNat (c.toNat + 32) else c

/-- The in-place normalisation at the top of `UCI::to_move`: when the
input has length exactly 5, its fifth character is lower-cased. -/
def lowerFifth (str : String) : String :=
  if str.length = 5 then
    String.mk (str.data.take 4 ++ (str.data.drop 4).map ctolower)
  else str

/-- Modelled from the spec: the slice of a `Position` that the codec
and the handlers observe — its legal-move list (`MoveList<LEGAL>`,
external move generation) in generation order, and its chess960 flag
(`Position::is_chess960`). -/
structure EnginePos where
  legalMoves : List Move
  chess960 : Bool
deriving DecidableEq, Repr

/-- `UCI::to_move`: normalise a 5-character input's last character to
lower case, then return the first legal move whose rendering under the
position's chess960 mode equals the input, or `MOVE_NONE`. -/
def to_move (pos : EnginePos) (str : String) : Move :=
  let s := lowerFifth str
  match pos.legalMoves.find? (fun m => uciMove m pos.chess960 = s) with
  | some m => m
  | Option.none => Move.none

/-- `UCI::value`: score text for the protocol.  The engine constants
`VALUE_MATE`, `MAX_PLY` and `PawnValueEg` live in the absent `types.h`
and are taken as parameters `mateV`, `maxPly`, `pawnEg` (modelled from
the spec, which leaves them as fixed positive constants with
`MAX_PLY < MATE_SENTINEL`).  `Int.tdiv` is C++ integer division
(truncation towards zero). -/
def uciValue (mateV maxPly pawnEg : Int) (v : Int) : String :=
  if |v| < mateV - maxPly then
    "cp " ++ toString (Int.tdiv (v * 100) pawnEg)
  else
    "mate " ++ toString (Int.tdiv (if v > 0 then mateV - v + 1 else -mateV - v) 2)

/-- Modelled from the spec: the Option Store is a flat name-to-value
table (the engine's `OptionsMap`, absent from the slice), embedded as
an association list with distinct keys. -/
def optCount (store : List (String × String)) (name : String) : Bool :=
  store.any (fun kv => kv.1 == name)

/-- Modelled from the spec: `Options[name] = value` on an existing
name overwrites the stored value and touches nothing else. -/
def optSet (store : List (String × String)) (name value : String) :
    List (String × String) :=
  store.map (fun kv => if kv.1 = name then (kv.1, value) else kv)

/-- Modelled from the spec: reading `Options["UCI_Chess960"]` as a
boolean (the engine converts the stored string; absent names read as
false here, which the handlers below never rely on). -/
def optBool (store : List (String × String)) (name : String) : Bool :=
  match store.find? (fun kv => kv.1 == name) with
  | some kv => kv.2 == "true"
  | Option.none => false

/-- The token-joining step of `setoption`:
`acc += string(" ", acc.empty() ? 0 : 1) + token`. -/
def joinTokens (toks : List String) : String :=
  toks.foldl (fun acc t => acc ++ (if acc.isEmpty then "" else " ") ++ t) ""

/-- The `setoption` handler on its token list (everything after the
command word): consume one token (the `name` keyword slot), reassemble
the name up to the literal `value`, reassemble the value from the
rest; overwrite an existing option, otherwise emit one diagnostic
line.  Returns the new store and the emitted lines. -/
def setoption (store : List (String × String)) (tokens : List String) :
    List (String × String) × List String :=
  let rest := tokens.drop 1
  let name := joinTokens (rest.takeWhile (fun t => t != "value"))
  let value := joinTokens ((rest.dropWhile (fun t => t != "value")).drop 1)
  if optCount store name then (optSet store name value, [])
  else (store, ["No such option: " ++ name])

/-- `StartFEN` of `uci.cpp`, verbatim. -/
def startFEN : String := "3r3k/p5pp/8/8/5P2/3Qp1P1/P2p3P/3R2K1 b - - 0 33"

/-- Written from the spec's words, for comparison with `startFEN`:
the canonical FEN of the initial chess position. -/
def canonicalStartFEN : String :=
  "rnbqkbnr/pppppppp/8/8/8/8/PPPPPPPP/RNBQKBNR w KQkq - 0 1"

/-- The FEN-selection phase of the `position` handler: on `startpos`
the built-in `startFEN` is chosen and one further token (the `moves`
keyword slot) is consumed; on `fen` the FEN is reassembled
token-by-token (each with a trailing space) up to the literal `moves`;
anything else makes the command a no-op (`none`).  Also returns the
remaining move tokens. -/
def positionFen (tokens : List String) : Option (String × List String) :=
  match tokens with
  | "startpos" :: rest => some (startFEN, rest.drop 1)
  | "fen" :: rest =>
      some ((rest.takeWhile (fun t => t != "moves")).foldl
              (fun acc t => acc ++ t ++ " ") "",
            (rest.dropWhile (fun t => t != "moves")).drop 1)
  | _ => none

/-- The live position together with the length of its `StateList`
(the `std::deque<StateInfo>`, which starts with one root sentinel
entry and grows by one per applied move). -/
structure UciState where
  pos : EnginePos
  statesLen : Nat
deriving DecidableEq, Repr

/-- The move-replay loop of the `position` handler: decode each token
against the evolving position, stop at the first failure
(`MOVE_NONE`), push one `StateInfo` and advance the position per
applied move.  `domove` stands for the external `Position::do_move`. -/
def replay (domove : EnginePos → Move → EnginePos) (st : UciState)
    (tokens : List String) : UciState :=
  match tokens with
  | [] => st
  | t :: ts =>
    let m := to_move st.pos t
    if m = Move.none then st
    else replay domove ⟨domove st.pos m, st.statesLen + 1⟩ ts

/-- The `position` handler on its token list: select the FEN (or do
nothing), rebuild a one-entry state list, set up the position with
the `UCI_Chess960` option, and replay the move tokens.  `set` stands
for the external `Position::set`. -/
def positionCmd (set : String → Bool → EnginePos)
    (opts : List (String × String)) (domove : EnginePos → Move → EnginePos)
    (st : UciState) (tokens : List String) : UciState :=
  match positionFen tokens with
  | Option.none => st
  | some (fen, mvToks) =>
      replay domove ⟨set fen (optBool opts "UCI_Chess960"), 1⟩ mvToks

/-- The `go` handler of this slice: print the quoted FEN, rebuild a
one-entry state list and set up a fresh position from the FEN with the
chess960 flag hard-coded to `false`; the ambient option store `opts`
is passed to witness that the handler ignores it.  Returns the new
state and the emitted text. -/
def goCmd (set : String → Bool → EnginePos)
    (opts : List (String × String)) (fen : String) : UciState × String :=
  (⟨set fen false, 1⟩, "\"" ++ fen ++ "\" ")

/-- Sequential decodability of a token list from a position: each
token decodes to a legal move in the position reached by applying the
previous ones. -/
def seqDecodes (domove : EnginePos → Move → EnginePos) (p : EnginePos) :
    List String → Bool
  | [] => true
  | t :: ts =>
    let m := to_move p t
    if m = Move.none then false else seqDecodes domove (domove p m) ts

/-- The position reached after decoding and applying a token list. -/
def posAfter (domove : EnginePos → Move → EnginePos) (p : EnginePos)
    (tokens : List String) : EnginePos :=
  tokens.foldl (fun q t => domove q (to_move q t)) p

/-- A concrete position whose only legal move renders as `e2e4`,
used to replay the spec's example command. -/
def posA : EnginePos := ⟨[Move.mk 12 28 .normal 0], false⟩

/-- A concrete position whose only legal move renders as `e7e5`. -/
def posB : EnginePos := ⟨[Move.mk 52 36 .normal 0], false⟩

/-- A concrete position with no legal moves. -/
def posC : EnginePos := ⟨[], false⟩

/-- A concrete stand-in for `Position::do_move` stepping
`posA → posB → posC`. -/
def demoMove : EnginePos → Move → EnginePos :=
  fun p _ => if p = posA then posB else posC

/-! Theorems. -/

theorem tdiv_two_pos {a : Int} (h : 2 ≤ a) : 0 < a.tdiv 2 := by
  rw [Int.tdiv_eq_ediv (by omega) (by decide)]
  omega

theorem tdiv_two_nonneg_lt {a : Int} (h0 : 0 ≤ a) (h1 : a < 2) : a.tdiv 2 = 0 := by
  rw [Int.tdiv_eq_ediv h0 (by decide)]
  omega

/-- C1: the claim demands that `position startpos` set up the canonical
initial chess position, and the in-code comment above `StartFEN` says
the same; but the `startpos` branch binds the FEN to `startFEN`, whose
piece-placement field differs from the canonical one — the code
contradicts its own documentation. -/
theorem c1_startpos_not_canonical :
    positionFen ["startpos"] = some (startFEN, []) ∧
    startFEN.data.takeWhile (fun c => c ≠ ' ') ≠
      canonicalStartFEN.data.takeWhile (fun c => c ≠ ' ') := by
  exact ⟨rfl, by decide⟩

/-- C3: the score formatter chooses the centipawn branch exactly when
`|s| < mateV - maxPly`: at `s = ±(mateV - maxPly - 1)` it renders
`"cp "` followed by `s * 100 / pawnEg` in truncating integer division,
and at `s = ±(mateV - maxPly)` it renders the mate branch. -/
theorem c3_score_boundary (mateV maxPly pawnEg : Int)
    (hP : 0 < maxPly) (hM : maxPly < mateV) :
    uciValue mateV maxPly pawnEg (mateV - maxPly - 1) =
      "cp " ++ toString (Int.tdiv ((mateV - maxPly - 1) * 100) pawnEg) ∧
    uciValue mateV maxPly pawnEg (-(mateV - maxPly - 1)) =
      "cp " ++ toString (Int.tdiv (-(mateV - maxPly - 1) * 100) pawnEg) ∧
    (∃ n : Int, uciValue mateV maxPly pawnEg (mateV - maxPly) =
      "mate " ++ toString n) ∧
    (∃ n : Int, uciValue mateV maxPly pawnEg (-(mateV - maxPly)) =
      "mate " ++ toString n) := by
  have h1 : |mateV - maxPly - 1| < mateV - maxPly := by
    rw [abs_of_nonneg (by omega)]
    omega
  have h2 : ¬ |mateV - maxPly| < mateV - maxPly := by
    rw [abs_of_nonneg (by omega)]
    omega
  refine ⟨?_, ?_,
    ⟨Int.tdiv (mateV - (mateV - maxPly) + 1) 2, ?_⟩,
    ⟨Int.tdiv (-mateV - -(mateV - maxPly)) 2, ?_⟩⟩
  · rw [uciValue, if_pos h1]
  · rw [uciValue, if_pos (by rwa [abs_neg])]
  · rw [uciValue, if_neg h2, if_pos (by omega)]
  · rw [uciValue, if_neg (by rwa [abs_neg]), if_neg (by omega)]

/-- C4 counterexample: at `s = -31999` (with `MATE_SENTINEL = 32000`,
`MAX_PLY = 246`, so `s` is in the mate range) the formatter renders
`"mate 0"`; the claim asserts the rendered count has the sign of `s`,
but `0` is not negative. -/
theorem c4_counterexample :
    32000 - 246 ≤ |(-31999 : Int)| ∧ |(-31999 : Int)| < 32000 ∧
    uciValue 32000 246 248 (-31999) = "mate " ++ toString (0 : Int) ∧
    ¬ (0 : Int) < 0 := by
  refine ⟨by decide, by decide, by decide, by decide⟩

/-- C4 (amended): in the mate range the formatter renders `"mate "`
followed by `(mateV - s + 1)/2` for positive `s` and `-(mateV + s)/2`
for negative `s` (truncating division); the count is positive for
positive `s`, and negative for negative `s` except at the single
point `s = 1 - mateV`, where it is `0`. -/
theorem c4_mate_render (mateV maxPly pawnEg : Int)
    (hP : 0 < maxPly) (hM : maxPly < mateV) (v : Int)
    (hlo : mateV - maxPly ≤ |v|) (hhi : |v| < mateV) :
    (0 < v → uciValue mateV maxPly pawnEg v =
        "mate " ++ toString (Int.tdiv (mateV - v + 1) 2) ∧
        0 < Int.tdiv (mateV - v + 1) 2) ∧
    (v < 0 → uciValue mateV maxPly pawnEg v =
        "mate " ++ toString (Int.tdiv (-mateV - v) 2) ∧
        Int.tdiv (-mateV - v) 2 = -(Int.tdiv (mateV + v) 2) ∧
        (v = 1 - mateV → Int.tdiv (-mateV - v) 2 = 0) ∧
        (v ≠ 1 - mateV → Int.tdiv (-mateV - v) 2 < 0)) := by
  have hbranch : ¬ |v| < mateV - maxPly := by omega
  have hneg : -mateV - v = -(mateV + v) := by ring
  constructor
  · intro hv
    have habs : |v| = v := abs_of_nonneg (by omega)
    constructor
    · rw [uciValue, if_neg hbranch, if_pos hv]
    · exact tdiv_two_pos (by omega)
  · intro hv
    have habs : |v| = -v := abs_of_neg hv
    have hv1 : 1 - mateV ≤ v := by omega
    refine ⟨?_, ?_, ?_, ?_⟩
    · rw [uciValue, if_neg hbranch, if_neg (by omega)]
    · rw [hneg, Int.neg_tdiv]
    · intro he
      rw [hneg, Int.neg_tdiv, tdiv_two_nonneg_lt (by omega) (by omega)]
      decide
    · intro hne
      rw [hneg, Int.neg_tdiv]
      have : 0 < Int.tdiv (mateV + v) 2 := tdiv_two_pos (by omega)
      omega

theorem c3_score_boundary_witness :
    (0 : Int) < 246 ∧ (246 : Int) < 32000 ∧
    (uciValue 32000 246 248 (32000 - 246 - 1) =
      "cp " ++ toString (Int.tdiv ((32000 - 246 - 1) * 100) 248) ∧
    uciValue 32000 246 248 (-(32000 - 246 - 1)) =
      "cp " ++ toString (Int.tdiv (-(32000 - 246 - 1) * 100) 248) ∧
    (∃ n : Int, uciValue 32000 246 248 (32000 - 246) =
      "mate " ++ toString n) ∧
    (∃ n : Int, uciValue 32000 246 248 (-(32000 - 246)) =
      "mate " ++ toString n)) :=
  ⟨by decide, by decide,
   c3_score_boundary 32000 246 248 (by decide) (by decide)⟩

theorem c4_mate_render_witness :
    (0 : Int) < 246 ∧ (246 : Int) < 32000 ∧
    32000 - 246 ≤ |(-31997 : Int)| ∧ |(-31997 : Int)| < 32000 ∧
    ((0 < (-31997 : Int) → uciValue 32000 246 248 (-31997) =
        "mate " ++ toString (Int.tdiv (32000 - (-31997) + 1) 2) ∧
        0 < Int.tdiv (32000 - (-31997) + 1) 2) ∧
     ((-31997 : Int) < 0 → uciValue 32000 246 248 (-31997) =
        "mate " ++ toString (Int.tdiv (-32000 - (-31997)) 2) ∧
        Int.tdiv (-32000 - (-31997)) 2 = -(Int.tdiv (32000 + (-31997)) 2) ∧
        ((-31997 : Int) = 1 - 32000 →
          Int.tdiv (-32000 - (-31997)) 2 = 0) ∧
        ((-31997 : Int) ≠ 1 - 32000 →
          Int.tdiv (-32000 - (-31997)) 2 < 0))) :=
  ⟨by decide, by decide, by decide, by decide,
   c4_mate_render 32000 246 248 (by decide) (by decide) (-31997)
     (by decide) (by decide)⟩

/-- C5: a castling move (encoded king-captures-own-rook) renders its
destination as the traditional king target — file G if the encoded
destination square is greater than the origin, file C otherwise, on
the origin's rank — when chess960 display is off, and renders the
encoded rook square unmodified when it is on; in particular the
king-side example `king e1 x rook h1` renders as `e1g1` resp. `e1h1`. -/
theorem c5_castling_render :
    (∀ orig dest promo : Nat,
       uciMove (.mk orig dest .castling promo) false =
         uciSquare orig ++
           uciSquare (mkSquare (if dest > orig then 6 else 2) (orig / 8)) ∧
       uciMove (.mk orig dest .castling promo) true =
         uciSquare orig ++ uciSquare dest) ∧
    uciMove (.mk 4 7 .castling 0) false = "e1g1" ∧
    uciMove (.mk 4 7 .castling 0) true = "e1h1" := by
  refine ⟨fun orig dest promo => ⟨?_, ?_⟩, by decide, by decide⟩
  · simp [uciMove]
  · simp [uciMove]

theorem find?_first {α : Type} (f : α → Bool) (l₁ : List α) (a : α)
    (l₂ : List α) (ha : f a = true) (h : ∀ x ∈ l₁, f x = false) :
    List.find? f (l₁ ++ a :: l₂) = some a := by
  induction l₁ with
  | nil => simp [List.find?, ha]
  | cons x xs ih =>
    have hx := h x (by simp)
    simp only [List.cons_append, List.find?, hx]
    exact ih (fun y hy => h y (by simp [hy]))

/-- C6: `to_move` first lower-cases the fifth character of a length-5
input (and leaves other inputs unchanged), then scans the position's
legal-move list in order: it returns the first move whose rendering
under the position's chess960 mode equals the normalised input, and
the `MOVE_NONE` sentinel when no rendering matches; no other
validation of the input takes place. -/
theorem c6_to_move_scan (p : EnginePos) (str : String) :
    (str.length ≠ 5 → lowerFifth str = str) ∧
    (∀ a b c d e : Char, str.data = [a, b, c, d, e] →
       lowerFifth str = String.mk [a, b, c, d, ctolower e]) ∧
    ((∀ m ∈ p.legalMoves, uciMove m p.chess960 ≠ lowerFifth str) →
       to_move p str = Move.none) ∧
    (∀ l₁ m l₂, p.legalMoves = l₁ ++ m :: l₂ →
       uciMove m p.chess960 = lowerFifth str →
       (∀ m' ∈ l₁, uciMove m' p.chess960 ≠ lowerFifth str) →
       to_move p str = m) := by
  refine ⟨?_, ?_, ?_, ?_⟩
  · intro h
    rw [lowerFifth, if_neg h]
  · intro a b c d e h
    have hlen : str.length = 5 := by
      simp [String.length, h]
    rw [lowerFifth, if_pos hlen, h]
    rfl
  · intro h
    have hfind : p.legalMoves.find?
        (fun m => uciMove m p.chess960 = lowerFifth str) = none := by
      rw [List.find?_eq_none]
      intro m hm
      simpa using h m hm
    simp only [to_move, hfind]
  · intro l₁ m l₂ hsplit hm hl₁
    have hfind : p.legalMoves.find?
        (fun m' => uciMove m' p.chess960 = lowerFifth str) = some m := by
      rw [hsplit]
      refine find?_first _ l₁ m l₂ ?_ ?_
      · simpa using hm
      · intro x hx
        simpa using hl₁ x hx
    simp only [to_move, hfind]

theorem c6_to_move_scan_witness :
    uciMove (Move.mk 48 56 .promotion 5)
        (⟨[Move.mk 48 56 .promotion 5], false⟩ : EnginePos).chess960 =
      lowerFifth "a7a8Q" ∧
    to_move ⟨[Move.mk 48 56 .promotion 5], false⟩ "a7a8Q" =
      Move.mk 48 56 .promotion 5 :=
  have hm : uciMove (Move.mk 48 56 .promotion 5)
      (⟨[Move.mk 48 56 .promotion 5], false⟩ : EnginePos).chess960 =
      lowerFifth "a7a8Q" := by decide
  ⟨hm, (c6_to_move_scan ⟨[Move.mk 48 56 .promotion 5], false⟩ "a7a8Q").2.2.2
    [] (Move.mk 48 56 .promotion 5) [] rfl hm (by decide)⟩

theorem replay_run (domove : EnginePos → Move → EnginePos)
    (good : List String) :
    ∀ (p : EnginePos) (n : Nat) (bad : String) (rest : List String),
      seqDecodes domove p good = true →
      to_move (posAfter domove p good) bad = Move.none →
      replay domove ⟨p, n⟩ (good ++ bad :: rest) =
        ⟨posAfter domove p good, n + good.length⟩ := by
  induction good with
  | nil =>
    intro p n bad rest _ hbad
    simp only [posAfter, List.foldl_nil] at hbad
    simp [replay, posAfter, hbad]
  | cons t ts ih =>
    intro p n bad rest hgood hbad
    rw [seqDecodes] at hgood
    by_cases hm : to_move p t = Move.none
    · rw [if_pos hm] at hgood
      exact absurd hgood (by decide)
    · rw [if_neg hm] at hgood
      have hstep : posAfter domove p (t :: ts) =
          posAfter domove (domove p (to_move p t)) ts := by
        simp [posAfter]
      rw [hstep] at hbad
      have := ih (domove p (to_move p t)) (n + 1) bad rest hgood hbad
      rw [List.cons_append, replay, if_neg hm, this, hstep]
      simp only [List.length_cons]
      congr 1
      omega

/-- C7: the move-replay loop of `position` applies the decodable
prefix of the token list left to right against the evolving position
and stops at the first token that fails to decode; the final
`StateList` length is the initial one (1, the root sentinel) plus the
number of applied moves, and everything after the failing token is
never examined (the result equals that of the list truncated right
after the failing token). -/
theorem c7_replay (domove : EnginePos → Move → EnginePos) (p : EnginePos)
    (n : Nat) (good : List String) (bad : String) (rest : List String)
    (hgood : seqDecodes domove p good = true)
    (hbad : to_move (posAfter domove p good) bad = Move.none) :
    replay domove ⟨p, n⟩ (good ++ bad :: rest) =
      ⟨posAfter domove p good, n + good.length⟩ ∧
    replay domove ⟨p, n⟩ (good ++ bad :: rest) =
      replay domove ⟨p, n⟩ (good ++ [bad]) := by
  have h1 := replay_run domove good p n bad rest hgood hbad
  have h2 := replay_run domove good p n bad [] hgood hbad
  exact ⟨h1, h1.trans h2.symm⟩

theorem c7_replay_witness :
    seqDecodes demoMove posA ["e2e4", "e7e5"] = true ∧
    to_move (posAfter demoMove posA ["e2e4", "e7e5"]) "zzzz" = Move.none ∧
    (replay demoMove ⟨posA, 1⟩ (["e2e4", "e7e5"] ++ "zzzz" :: ["d2d4"]) =
       ⟨posAfter demoMove posA ["e2e4", "e7e5"],
        1 + (["e2e4", "e7e5"] : List String).length⟩ ∧
     replay demoMove ⟨posA, 1⟩ (["e2e4", "e7e5"] ++ "zzzz" :: ["d2d4"]) =
       replay demoMove ⟨posA, 1⟩ (["e2e4", "e7e5"] ++ ["zzzz"])) :=
  have hg : seqDecodes demoMove posA ["e2e4", "e7e5"] = true := by decide
  have hb : to_move (posAfter demoMove posA ["e2e4", "e7e5"]) "zzzz" =
      Move.none := by decide
  ⟨hg, hb, c7_replay demoMove posA 1 ["e2e4", "e7e5"] "zzzz" ["d2d4"] hg hb⟩

/-- C8: `setoption` with a reassembled name absent from the option
store leaves the store completely unchanged and emits exactly one
diagnostic line naming the unknown option; with a present name it
overwrites that option's value with the reassembled value string,
emitting nothing and creating or removing no entry. -/
theorem c8_setoption (store : List (String × String))
    (tokens : List String) :
    (optCount store
        (joinTokens ((tokens.drop 1).takeWhile (fun t => t != "value"))) =
          false →
      setoption store tokens =
        (store, ["No such option: " ++
          joinTokens ((tokens.drop 1).takeWhile (fun t => t != "value"))])) ∧
    (optCount store
        (joinTokens ((tokens.drop 1).takeWhile (fun t => t != "value"))) =
          true →
      setoption store tokens =
        (optSet store
          (joinTokens ((tokens.drop 1).takeWhile (fun t => t != "value")))
          (joinTokens
            (((tokens.drop 1).dropWhile (fun t => t != "value")).drop 1)),
         []) ∧
      (optSet store
        (joinTokens ((tokens.drop 1).takeWhile (fun t => t != "value")))
        (joinTokens
          (((tokens.drop 1).dropWhile (fun t => t != "value")).drop 1))).length
        = store.length) := by
  constructor
  · intro h
    rw [List.drop_one] at h
    simp [setoption, h]
  · intro h
    rw [List.drop_one] at h
    refine ⟨by simp [setoption, h], ?_⟩
    simp [optSet]

theorem c8_setoption_witness :
    optCount [("Hash", "16")]
      (joinTokens
        (((["name", "NotARealOption", "value", "5"] : List String).drop
            1).takeWhile (fun t => t != "value"))) = false ∧
    setoption [("Hash", "16")] ["name", "NotARealOption", "value", "5"] =
      ([("Hash", "16")],
       ["No such option: " ++
         joinTokens
          (((["name", "NotARealOption", "value", "5"] : List String).drop
              1).takeWhile (fun t => t != "value"))]) :=
  have h : optCount [("Hash", "16")]
      (joinTokens
        (((["name", "NotARealOption", "value", "5"] : List String).drop
            1).takeWhile (fun t => t != "value"))) = false := by decide
  ⟨h, (c8_setoption [("Hash", "16")]
        ["name", "NotARealOption", "value", "5"]).1 h⟩

/-- C9: a `position` command whose first argument token is neither
`fen` nor `startpos` (or that has no argument at all) is a no-op: the
prior position and `StateList` are returned untouched, no fresh state
list is built and no move is applied. -/
theorem c9_position_noop (set : String → Bool → EnginePos)
    (opts : List (String × String)) (domove : EnginePos → Move → EnginePos)
    (st : UciState) (tokens : List String)
    (h : tokens = [] ∨
      ∃ t ts, tokens = t :: ts ∧ t ≠ "fen" ∧ t ≠ "startpos") :
    positionCmd set opts domove st tokens = st := by
  rcases h with rfl | ⟨t, ts, rfl, hf, hs⟩
  · rfl
  · have hnone : positionFen (t :: ts) = none := by
      unfold positionFen
      split
      · rename_i heq
        exact absurd (List.head_eq_of_cons_eq heq.symm).symm hs
      · rename_i heq
        exact absurd (List.head_eq_of_cons_eq heq.symm).symm hf
      · rfl
    unfold positionCmd
    rw [hnone]

theorem c9_position_noop_witness :
    ((["ucinewgame"] : List String) = [] ∨
      ∃ t ts, (["ucinewgame"] : List String) = t :: ts ∧
        t ≠ "fen" ∧ t ≠ "startpos") ∧
    positionCmd (fun _ _ => posC) [] demoMove ⟨posA, 5⟩ ["ucinewgame"] =
      ⟨posA, 5⟩ :=
  have h : (["ucinewgame"] : List String) = [] ∨
      ∃ t ts, (["ucinewgame"] : List String) = t :: ts ∧
        t ≠ "fen" ∧ t ≠ "startpos" :=
    Or.inr ⟨"ucinewgame", [], rfl, by decide, by decide⟩
  ⟨h, c9_position_noop (fun _ _ => posC) [] demoMove ⟨posA, 5⟩
    ["ucinewgame"] h⟩

/-- C10: the `go` handler of this slice constructs its fresh position
with the chess960 flag hard-coded to `false`, whatever the ambient
option store holds — its result is the same for any two stores —
whereas the `position` handler passes the `UCI_Chess960` option
through to `Position::set`. -/
theorem c10_go_ignores_chess960 (set : String → Bool → EnginePos)
    (opts opts2 : List (String × String)) (fen : String)
    (domove : EnginePos → Move → EnginePos) (st : UciState) :
    (goCmd set opts fen).1.pos = set fen false ∧
    goCmd set opts fen = goCmd set opts2 fen ∧
    (positionCmd set opts domove st ["startpos"]).pos =
      set startFEN (optBool opts "UCI_Chess960") :=
  ⟨rfl, rfl, rfl⟩

end UciSpec
